import Mathlib

/-!
Sheet-to-SQLite converter: column naming, identifier extraction, row insertion.

A shallow embedding of `walkthrough-conversion/converter.go`.

A Go `string` is modelled as the sequence of runes that Go's `regexp` and
`strings` packages see when they decode it (an invalid UTF-8 byte is decoded
as one rune of width one, outside ASCII).  Every string that the functions
below *produce* is pure ASCII, so byte indexing (`name[0]`) and rune indexing
agree on them.
-/

namespace Converter

/-- A Go string, as a sequence of runes. -/
abbrev GoString := List Char

/-! ## Regular-expression character classes -/

/-- The class `[a-zA-Z0-9_]`. -/
def isWordChar (c : Char) : Bool :=
  (decide ('a' ≤ c) && decide (c ≤ 'z')) ||
  (decide ('A' ≤ c) && decide (c ≤ 'Z')) ||
  (decide ('0' ≤ c) && decide (c ≤ '9')) ||
  c == '_'

/-- The class `[a-zA-Z0-9-_]`: letters, digits, the hyphen and the underscore. -/
def isIdChar (c : Char) : Bool :=
  (decide ('a' ≤ c) && decide (c ≤ 'z')) ||
  (decide ('A' ≤ c) && decide (c ≤ 'Z')) ||
  (decide ('0' ≤ c) && decide (c ≤ '9')) ||
  c == '-' || c == '_'

/-- The byte test `b >= '0' && b <= '9'`. -/
def isDigit (c : Char) : Bool :=
  decide ('0' ≤ c) && decide (c ≤ '9')

/-! ## sanitizeColumnName -/

/-- `regexp.MustCompile("[^a-zA-Z0-9_]").ReplaceAllString(header, "_")`:
every rune outside the class is replaced by one underscore. -/
def replaceNonWord (s : GoString) : GoString :=
  s.map (fun c => if isWordChar c then c else '_')

/-- `regexp.MustCompile("_+").ReplaceAllString(name, "_")`, scanning left to
right.  The flag records that the scan is inside a match of `_+`: the
replacement is emitted when the match starts and the rest of the (greedy)
match is consumed. -/
def collapseFrom : Bool → GoString → GoString
  | _, [] => []
  | inRun, c :: rest =>
    if c = '_' then
      if inRun then collapseFrom true rest else '_' :: collapseFrom true rest
    else c :: collapseFrom false rest

/-- Collapse of every run of underscores into one underscore. -/
def collapseUnderscores (s : GoString) : GoString := collapseFrom false s

/-- `strings.Trim(name, "_")`: leading and trailing underscores are removed. -/
def trimUnderscores (s : GoString) : GoString :=
  (s.dropWhile (fun c => c == '_')).rdropWhile (fun c => c == '_')

/-- The function `sanitizeColumnName` of converter.go. -/
def sanitizeColumnName (header : GoString) : GoString :=
  let name := replaceNonWord header
  let name := collapseUnderscores name
  let name := trimUnderscores name
  let name :=
    match name with
    | c :: _ => if isDigit c then "col_".toList ++ name else name
    | [] => name
  if name = [] then "unnamed_column".toList else name

/-! ## extractSheetID -/

/-- One attempt of the pattern `lit([a-zA-Z0-9-_]+)` at the start of `s`: the
literal text, then the longest (greedy) non-empty run of class characters.
The result is the submatch list `[whole match, group 1]`, or `[]`. -/
def matchAt (lit s : GoString) : List GoString :=
  if lit.isPrefixOf s then
    let run := (s.drop lit.length).takeWhile isIdChar
    if run = [] then [] else [lit ++ run, run]
  else []

/-- `regexp.MustCompile(lit ++ "([a-zA-Z0-9-_]+)").FindStringSubmatch(s)`:
the submatches of the leftmost match, or `[]` (Go's `nil`) when the pattern
matches nowhere. -/
def findStringSubmatch (lit : GoString) : GoString → List GoString
  | [] => matchAt lit []
  | c :: rest =>
    match matchAt lit (c :: rest) with
    | [] => findStringSubmatch lit rest
    | ms => ms

/-- The literal parts of the two entries of `patterns`; both end in the group
`([a-zA-Z0-9-_]+)`. -/
def patterns : List GoString := ["/spreadsheets/d/".toList, "key=".toList]

/-- The `for _, pattern := range patterns` loop: the first pattern with
`len(matches) > 1` returns `matches[1]`. -/
def extractLoop : List GoString → GoString → Option GoString
  | [], _ => none
  | pattern :: more, url =>
    match findStringSubmatch pattern url with
    | _ :: m1 :: _ => some m1
    | _ => extractLoop more url

/-- `regexp.MustCompile("^[a-zA-Z0-9-_]+$").MatchString(url)`. -/
def matchesBareID (url : GoString) : Bool :=
  !url.isEmpty && url.all isIdChar

/-- The function `extractSheetID` of converter.go; the error carries its
message. -/
def extractSheetID (url : GoString) : Except GoString GoString :=
  match extractLoop patterns url with
  | some id => .ok id
  | none =>
    if matchesBareID url then .ok url
    else .error ("could not extract sheet ID from URL: ".toList ++ url)

/-! ## Column naming in createDatabase and insertData -/

/-- The Go map `usedNames : map[string]int`. -/
abbrev NameMap := GoString → Option Nat

/-- The map made by `make(map[string]int)`. -/
def NameMap.empty : NameMap := fun _ => none

/-- The assignment `usedNames[k] = v`. -/
def NameMap.set (m : NameMap) (k : GoString) (v : Nat) : NameMap :=
  fun k1 => if k1 = k then some v else m k1

/-- The verb `%d` of `fmt.Sprintf` on a non-negative `int`. -/
def formatInt (n : Nat) : GoString := Nat.toDigits 10 n

/-- `strings.Join(parts, sep)`. -/
def join (parts : List GoString) (sep : GoString) : GoString :=
  List.intercalate sep parts

/-- Body of the header loop of `createDatabase`, on the pair
`(usedNames, columns)`. -/
def createDatabaseStep (st : NameMap × List GoString) (header : GoString) :
    NameMap × List GoString :=
  let colName := sanitizeColumnName header
  match st.1 colName with
  | some count =>
    (st.1.set colName (count + 1),
      st.2 ++ ["\"".toList ++ (colName ++ "_".toList ++ formatInt (count + 1)) ++ "\" TEXT".toList])
  | none =>
    (st.1.set colName 1, st.2 ++ ["\"".toList ++ colName ++ "\" TEXT".toList])

/-- The slice `columns` of `createDatabase` when the header loop ends. -/
def createDatabaseColumns (headers : List GoString) : List GoString :=
  (headers.foldl createDatabaseStep
    (NameMap.empty, ["id INTEGER PRIMARY KEY AUTOINCREMENT".toList])).2

/-- The statement `createSQL` of `createDatabase`. -/
def createSQL (headers : List GoString) : GoString :=
  "CREATE TABLE walkthrough_data (\n  ".toList ++
    join (createDatabaseColumns headers) ",\n  ".toList ++ "\n)".toList

/-- Body of the header loop of `insertData`, on the pair
`(usedNames, colNames)`. -/
def insertDataStep (st : NameMap × List GoString) (header : GoString) :
    NameMap × List GoString :=
  let colName := sanitizeColumnName header
  match st.1 colName with
  | some count =>
    (st.1.set colName (count + 1),
      st.2 ++ ["\"".toList ++ (colName ++ "_".toList ++ formatInt (count + 1)) ++ "\"".toList])
  | none =>
    (st.1.set colName 1, st.2 ++ ["\"".toList ++ colName ++ "\"".toList])

/-- The slice `colNames` of `insertData` when the header loop ends. -/
def insertDataColNames (headers : List GoString) : List GoString :=
  (headers.foldl insertDataStep (NameMap.empty, [])).2

/-- The slice `placeholders` of `insertData`. -/
def placeholders (headers : List GoString) : List GoString :=
  List.replicate headers.length "?".toList

/-- The statement `insertSQL` of `insertData`. -/
def insertSQL (headers : List GoString) : GoString :=
  "INSERT INTO walkthrough_data (".toList ++ join (insertDataColNames headers) ", ".toList ++
    ") VALUES (".toList ++ join (placeholders headers) ", ".toList ++ ")".toList

/-! ## Row insertion -/

/-- The slice `values` that `insertData` builds for one row: one entry per
header, `row[j]` when the row is long enough and `""` otherwise. -/
def rowValues (headers : List GoString) (row : List GoString) : List GoString :=
  (List.range headers.length).map (fun j => if j < row.length then row.getD j [] else [])

/-- The two database operations `insertData` calls, on a store of type `σ`
with errors of type `ε`: `db.Prepare(sql)` and `stmt.Exec(values...)` of the
prepared statement.  A failed `Exec` leaves the store as it was. -/
structure Driver (σ ε : Type) where
  /-- `none` when the statement is prepared, else the error. -/
  prepare : σ → GoString → Option ε
  /-- The store after the execution of the statement, or the error. -/
  exec : σ → GoString → List GoString → Except ε σ

/-- The errors `insertData` returns. -/
inductive InsertError (ε : Type) where
  /-- `failed to prepare insert statement: %w`. -/
  | prepareFailed (cause : ε)
  /-- `failed to insert row %d: %w`. -/
  | rowFailed (row : Nat) (cause : ε)
  deriving DecidableEq, Repr

/-- What a call of `insertData` leaves behind: the store, the calls of
`stmt.Exec` it made in order (index of the row in `data`, parameter list), and
the returned error (`none` for `nil`). -/
structure InsertOutcome (σ ε : Type) where
  /-- The store when `insertData` returns. -/
  db : σ
  /-- The calls of `stmt.Exec`, oldest first. -/
  executed : List (Nat × List GoString)
  /-- The returned error. -/
  err : Option (InsertError ε)

/-- The loop `for i, row := range data` of `insertData`, from index `i` on. -/
def insertRows {σ ε : Type} (d : Driver σ ε) (sql : GoString) (headers : List GoString) :
    Nat → σ → List (Nat × List GoString) → List (List GoString) → InsertOutcome σ ε
  | _, db, log, [] => ⟨db, log, none⟩
  | i, db, log, row :: rest =>
    let values := rowValues headers row
    match d.exec db sql values with
    | .error e => ⟨db, log ++ [(i, values)], some (.rowFailed (i + 1) e)⟩
    | .ok db1 => insertRows d sql headers (i + 1) db1 (log ++ [(i, values)]) rest

/-- The function `insertData` of converter.go. -/
def insertData {σ ε : Type} (d : Driver σ ε) (db : σ) (headers : List GoString)
    (data : List (List GoString)) : InsertOutcome σ ε :=
  if data.length = 0 then ⟨db, [], none⟩
  else
    match d.prepare db (insertSQL headers) with
    | some e => ⟨db, [], some (.prepareFailed e)⟩
    | none => insertRows d (insertSQL headers) headers 0 db [] data

/-- The store after the calls `calls` of `stmt.Exec` in order, a failed call
leaving it unchanged. -/
def storeAfter {σ ε : Type} (d : Driver σ ε) (sql : GoString) : σ → List (List GoString) → σ
  | db, [] => db
  | db, v :: vs =>
    match d.exec db sql v with
    | .ok db1 => storeAfter d sql db1 vs
    | .error _ => storeAfter d sql db vs

/-- Whether `stmt.Exec(values...)` fails on the store `db`. -/
def execFails {σ ε : Type} (d : Driver σ ε) (sql : GoString) (db : σ)
    (values : List GoString) : Bool :=
  match d.exec db sql values with
  | .ok _ => false
  | .error _ => true

/-- Whether the execution of row `k` of `data` fails, on the store that the
rows before it leave. -/
def rowFails {σ ε : Type} (d : Driver σ ε) (db : σ) (headers : List GoString)
    (data : List (List GoString)) (k : Nat) : Bool :=
  execFails d (insertSQL headers)
    (storeAfter d (insertSQL headers) db ((data.take k).map (rowValues headers)))
    (rowValues headers (data.getD k []))

/-- A driver whose `Prepare` fails and whose `Exec` always succeeds. -/
def noPrepare : Driver Unit Unit where
  prepare := fun _ _ => some ()
  exec := fun db _ _ => .ok db

/-- A driver that accepts every statement and rejects the parameter list
`[bad]`; the store counts the rows inserted. -/
def rejectBad : Driver Nat Unit where
  prepare := fun _ _ => none
  exec := fun db _ values => if values = ["bad".toList] then .error () else .ok (db + 1)

/-! ## Notions used in the statements and proofs -/

/-- No two neighbouring underscores. -/
def SingleUnderscores (s : GoString) : Prop :=
  List.Chain' (fun a b => ¬ (a = '_' ∧ b = '_')) s

/-- The shape of a name after replacement, collapse and trim: class characters
only, no run of two underscores, no underscore at either end. -/
structure Trimmed (s : GoString) : Prop where
  word : ∀ c ∈ s, isWordChar c = true
  single : SingleUnderscores s
  headOk : s.head? ≠ some '_'
  lastOk : s.getLast? ≠ some '_'

/-- The name the loops give a header when the headers `seen` came before it:
the base name on its first occurrence, else the base name, an underscore and
the number of occurrences so far (this one included). -/
def derivedName (seen : List GoString) (header : GoString) : GoString :=
  let base := sanitizeColumnName header
  let n := (seen.map sanitizeColumnName).count base
  if n = 0 then base else base ++ "_".toList ++ formatInt (n + 1)

/-- The names of the headers `hs` that follow the headers `seen`. -/
def derivedNames (seen : List GoString) : List GoString → List GoString
  | [] => []
  | h :: t => derivedName seen h :: derivedNames (seen ++ [h]) t

/-- The content of `usedNames` after the headers `seen`. -/
def countMap (seen : List GoString) : NameMap :=
  fun k => if (seen.map sanitizeColumnName).count k = 0 then none
    else some ((seen.map sanitizeColumnName).count k)

/-- The common shape of the two loop bodies; `wrap` formats the name. -/
def dedupStep (wrap : GoString → GoString) (st : NameMap × List GoString)
    (header : GoString) : NameMap × List GoString :=
  match st.1 (sanitizeColumnName header) with
  | some count =>
    (st.1.set (sanitizeColumnName header) (count + 1),
      st.2 ++ [wrap (sanitizeColumnName header ++ "_".toList ++ formatInt (count + 1))])
  | none => (st.1.set (sanitizeColumnName header) 1, st.2 ++ [wrap (sanitizeColumnName header)])

/-- The literal `lit` occurs in `s` immediately followed by a character of
`[a-zA-Z0-9-_]`. -/
def Occurs (lit s : GoString) : Prop :=
  ∃ (p : GoString) (c : Char) (r : GoString), s = p ++ lit ++ c :: r ∧ isIdChar c = true

/-! ## Lemmas on the sanitizer -/

theorem replaceNonWord_word (s : GoString) : ∀ c ∈ replaceNonWord s, isWordChar c = true := by
  intro c hc
  simp only [replaceNonWord, List.mem_map] at hc
  obtain ⟨a, _, rfl⟩ := hc
  by_cases h : isWordChar a = true
  · simp [h]
  · have h2 : isWordChar a = false := by simpa using h
    rw [h2, if_neg Bool.false_ne_true]; decide

theorem replaceNonWord_id {s : GoString} (h : ∀ c ∈ s, isWordChar c = true) :
    replaceNonWord s = s := by
  induction s with
  | nil => rfl
  | cons a t ih =>
    have ha : isWordChar a = true := h a (List.mem_cons_self _ _)
    have ht := ih (fun c hc => h c (List.mem_cons_of_mem _ hc))
    simp only [replaceNonWord, List.map_cons] at ht ⊢
    rw [ht]; simp [ha]

theorem mem_collapseFrom {c : Char} : ∀ (s : GoString) (b : Bool), c ∈ collapseFrom b s → c ∈ s := by
  intro s
  induction s with
  | nil => intro b h; simp [collapseFrom] at h
  | cons a t ih =>
    intro b h
    unfold collapseFrom at h
    by_cases ha : a = '_'
    · cases b
      · simp only [ha, if_true, Bool.false_eq_true, if_false, List.mem_cons] at h
        rcases h with h | h
        · simp [h, ha]
        · exact List.mem_cons_of_mem _ (ih _ h)
      · simp only [ha, if_true] at h
        exact List.mem_cons_of_mem _ (ih _ h)
    · simp only [ha, if_false, List.mem_cons] at h
      rcases h with h | h
      · simp [h]
      · exact List.mem_cons_of_mem _ (ih _ h)

theorem collapseFrom_single : ∀ (s : GoString) (b : Bool),
    SingleUnderscores (collapseFrom b s) ∧
      (b = true → (collapseFrom b s).head? ≠ some '_') := by
  intro s
  induction s with
  | nil => intro b; simp [collapseFrom, SingleUnderscores]
  | cons a t ih =>
    intro b
    unfold collapseFrom
    by_cases ha : a = '_'
    · cases b
      · simp only [ha, if_true, Bool.false_eq_true, if_false]
        refine ⟨?_, by simp⟩
        have h := ih true
        unfold SingleUnderscores at h ⊢
        rw [List.chain'_cons']
        refine ⟨?_, h.1⟩
        intro y hy hh
        exact h.2 rfl (by rw [Option.mem_def] at hy; rw [hy, hh.2])
      · rw [if_pos ha, if_pos rfl]
        exact ih true
    · simp only [ha, if_false]
      refine ⟨?_, by simp [ha]⟩
      have h := ih false
      unfold SingleUnderscores at h ⊢
      rw [List.chain'_cons']
      exact ⟨fun y _ hh => ha hh.1, h.1⟩

theorem collapseFrom_id : ∀ (s : GoString) (b : Bool), SingleUnderscores s →
    (b = true → s.head? ≠ some '_') → collapseFrom b s = s := by
  intro s
  induction s with
  | nil => intro b _ _; rfl
  | cons a t ih =>
    intro b hs hb
    unfold SingleUnderscores at hs
    rw [List.chain'_cons'] at hs
    unfold collapseFrom
    by_cases ha : a = '_'
    · cases b
      · simp only [ha, if_true, Bool.false_eq_true, if_false]
        rw [ih true hs.2]
        intro _ hh
        exact hs.1 _ (by rw [Option.mem_def]; exact hh) ⟨ha, rfl⟩
      · exact absurd (by simp [ha]) (hb rfl)
    · simp only [ha, if_false]
      rw [ih false hs.2 (by simp)]

theorem trimUnderscores_sub (s : GoString) : trimUnderscores s <:+: s :=
  (List.rdropWhile_prefix _ _).isInfix.trans (List.dropWhile_suffix _).isInfix

theorem trimUnderscores_head (s : GoString) : (trimUnderscores s).head? ≠ some '_' := by
  unfold trimUnderscores
  have h1 := List.head?_dropWhile_not (fun c => c == '_') s
  obtain ⟨t, ht⟩ := List.rdropWhile_prefix (fun c => c == '_') (s.dropWhile (fun c => c == '_'))
  generalize List.rdropWhile (fun c => c == '_') (s.dropWhile (fun c => c == '_')) = r at ht
  generalize s.dropWhile (fun c => c == '_') = m at ht h1
  subst ht
  cases r with
  | nil => simp
  | cons a r =>
    intro h
    simp only [List.cons_append, List.head?_cons, Option.some.injEq] at h h1
    simp [h] at h1

theorem trimUnderscores_last (s : GoString) : (trimUnderscores s).getLast? ≠ some '_' := by
  unfold trimUnderscores
  intro h
  have hne : List.rdropWhile (fun c => c == '_') (s.dropWhile (fun c => c == '_')) ≠ [] := by
    intro h0; rw [h0] at h; simp at h
  have h2 := List.rdropWhile_last_not (fun c => c == '_') _ hne
  rw [List.getLast?_eq_getLast _ hne] at h
  simp only [Option.some.injEq] at h
  simp [h] at h2

theorem trimUnderscores_id {s : GoString} (hh : s.head? ≠ some '_')
    (hl : s.getLast? ≠ some '_') : trimUnderscores s = s := by
  unfold trimUnderscores
  have h1 : s.dropWhile (fun c => c == '_') = s := by
    cases s with
    | nil => rfl
    | cons a t =>
      have : a ≠ '_' := by simpa using hh
      simp [List.dropWhile_cons, this]
  rw [h1, List.rdropWhile_eq_self_iff]
  intro hne hp
  apply hl
  rw [List.getLast?_eq_getLast _ hne]
  simpa using hp

theorem trimmed_core (h : GoString) :
    Trimmed (trimUnderscores (collapseUnderscores (replaceNonWord h))) where
  word := fun c hc =>
    replaceNonWord_word h c
      (mem_collapseFrom _ _ ((trimUnderscores_sub _).subset hc))
  single := List.Chain'.infix (collapseFrom_single _ false).1 (trimUnderscores_sub _)
  headOk := trimUnderscores_head _
  lastOk := trimUnderscores_last _

/-- The three ways `sanitizeColumnName` ends, by the trimmed name `t`. -/
theorem sanitizeColumnName_cases (header : GoString) :
    let t := trimUnderscores (collapseUnderscores (replaceNonWord header))
    (t = [] ∧ sanitizeColumnName header = "unnamed_column".toList) ∨
    (∃ c r, t = c :: r ∧ isDigit c = true ∧ sanitizeColumnName header = "col_".toList ++ t) ∨
    (∃ c r, t = c :: r ∧ isDigit c = false ∧ sanitizeColumnName header = t) := by
  intro t
  have ht : sanitizeColumnName header =
      (if (match t with
            | c :: _ => if isDigit c then "col_".toList ++ t else t
            | [] => t) = [] then "unnamed_column".toList
        else (match t with
            | c :: _ => if isDigit c then "col_".toList ++ t else t
            | [] => t)) := rfl
  rw [ht]
  cases hc : t with
  | nil => left; simp
  | cons c r =>
    right
    by_cases hd : isDigit c = true
    · left; exact ⟨c, r, rfl, hd, by simp [hd]⟩
    · right
      have hd2 : isDigit c = false := by simpa using hd
      exact ⟨c, r, rfl, hd2, by simp [hd2]⟩

theorem sanitizeColumnName_fixed {s : GoString} (hs : Trimmed s) (hne : s ≠ [])
    (hd : ∀ c, s.head? = some c → isDigit c = false) : sanitizeColumnName s = s := by
  have h1 : trimUnderscores (collapseUnderscores (replaceNonWord s)) = s := by
    rw [replaceNonWord_id hs.word, collapseUnderscores,
      collapseFrom_id s false hs.single (by simp), trimUnderscores_id hs.headOk hs.lastOk]
  rcases sanitizeColumnName_cases s with h | ⟨c, r, hc, hdig, _⟩ | ⟨c, r, _, _, h⟩
  · exact absurd (h1 ▸ h.1) hne
  · rw [h1] at hc
    have := hd c (by rw [hc]; rfl)
    rw [this] at hdig; exact absurd hdig (by simp)
  · rw [h, h1]

theorem trimmed_unnamed : Trimmed "unnamed_column".toList where
  word := by decide
  single := by
    show List.Chain' _ ['u', 'n', 'n', 'a', 'm', 'e', 'd', '_', 'c', 'o', 'l', 'u', 'm', 'n']
    simp
  headOk := by decide
  lastOk := by decide

theorem trimmed_col {t : GoString} (ht : Trimmed t) {c : Char} {r : GoString}
    (hc : t = c :: r) : Trimmed ("col_".toList ++ t) where
  word := by
    intro x hx
    rcases List.mem_append.1 hx with h | h
    · have hw : ∀ y ∈ "col_".toList, isWordChar y = true := by decide
      exact hw x h
    · exact ht.word x h
  single := by
    unfold SingleUnderscores
    have hcol : List.Chain' (fun a b => ¬ (a = '_' ∧ b = '_')) ['c', 'o', 'l', '_'] := by simp
    refine List.Chain'.append hcol ht.single ?_
    intro x _ y hy hxy
    exact ht.headOk (by rw [Option.mem_def] at hy; rw [hy, hxy.2])
  headOk := by
    show some 'c' ≠ some '_'
    decide
  lastOk := by
    subst hc
    have h := ht.lastOk
    rw [List.getLast?_append_of_ne_nil _ (by simp)]
    exact h

/-- Every result of `sanitizeColumnName` is trimmed, non-empty and does not
start with a digit. -/
theorem sanitizeColumnName_trimmed (header : GoString) :
    Trimmed (sanitizeColumnName header) ∧ sanitizeColumnName header ≠ [] ∧
    (∀ c, (sanitizeColumnName header).head? = some c → isDigit c = false) := by
  have ht := trimmed_core header
  rcases sanitizeColumnName_cases header with ⟨_, h⟩ | ⟨c, r, hc, _, h⟩ | ⟨c, r, hc, hd, h⟩
  · rw [h]; exact ⟨trimmed_unnamed, by decide, by decide⟩
  · rw [h]
    refine ⟨trimmed_col ht hc, by simp, ?_⟩
    intro x hx
    have : x = 'c' := by simpa using hx.symm
    rw [this]; decide
  · rw [h]
    refine ⟨ht, by rw [hc]; simp, ?_⟩
    intro x hx
    rw [hc] at hx
    have : x = c := by simpa using hx.symm
    rw [this]; exact hd

/-- C2: for every input string, `sanitizeColumnName` returns a non-empty string
made only of characters of `[a-zA-Z0-9_]` whose first character is not a
digit. -/
theorem sanitizeColumnName_valid (header : GoString) :
    sanitizeColumnName header ≠ [] ∧
    (∀ c ∈ sanitizeColumnName header, isWordChar c = true) ∧
    (∀ c, (sanitizeColumnName header).head? = some c → isDigit c = false) := by
  obtain ⟨ht, hne, hd⟩ := sanitizeColumnName_trimmed header
  exact ⟨hne, ht.word, hd⟩

/-- C10: `sanitizeColumnName` is idempotent; in particular `unnamed_column` and
a name with the prefix `col_` are fixed points. -/
theorem sanitizeColumnName_idempotent (h : GoString) :
    sanitizeColumnName (sanitizeColumnName h) = sanitizeColumnName h ∧
    sanitizeColumnName "unnamed_column".toList = "unnamed_column".toList ∧
    sanitizeColumnName (sanitizeColumnName "2nd".toList) = "col_2nd".toList := by
  refine ⟨?_, by decide, by decide⟩
  obtain ⟨ht, hne, hd⟩ := sanitizeColumnName_trimmed h
  exact sanitizeColumnName_fixed ht hne hd

/-! ## Lemmas on the naming loops -/

theorem createDatabaseStep_eq :
    createDatabaseStep = dedupStep (fun n => "\"".toList ++ n ++ "\" TEXT".toList) := rfl

theorem insertDataStep_eq :
    insertDataStep = dedupStep (fun n => "\"".toList ++ n ++ "\"".toList) := rfl

theorem countMap_nil : countMap [] = NameMap.empty := by
  funext k; simp [countMap, NameMap.empty]

theorem countMap_set (seen : List GoString) (header : GoString) :
    (countMap seen).set (sanitizeColumnName header)
      ((seen.map sanitizeColumnName).count (sanitizeColumnName header) + 1) =
    countMap (seen ++ [header]) := by
  funext k
  simp only [NameMap.set, countMap, List.map_append, List.map_cons, List.map_nil,
    List.count_append, List.count_singleton]
  by_cases hk : k = sanitizeColumnName header
  · subst hk; simp
  · have hk2 : ¬ (sanitizeColumnName header == k) = true := by
      simpa using fun h => hk h.symm
    simp [hk, hk2]

theorem dedupStep_countMap (wrap : GoString → GoString) (seen : List GoString)
    (cols : List GoString) (header : GoString) :
    dedupStep wrap (countMap seen, cols) header =
      (countMap (seen ++ [header]), cols ++ [wrap (derivedName seen header)]) := by
  unfold dedupStep derivedName
  by_cases h0 : (seen.map sanitizeColumnName).count (sanitizeColumnName header) = 0
  · have hm : countMap seen (sanitizeColumnName header) = none := by simp [countMap, h0]
    simp only [hm, h0, if_true]
    rw [← countMap_set, h0]
  · have hm : countMap seen (sanitizeColumnName header) =
        some ((seen.map sanitizeColumnName).count (sanitizeColumnName header)) := by
      simp [countMap, h0]
    simp only [hm, h0, if_false]
    rw [← countMap_set]

theorem foldl_dedupStep (wrap : GoString → GoString) :
    ∀ (hs seen cols : List GoString),
      hs.foldl (dedupStep wrap) (countMap seen, cols) =
        (countMap (seen ++ hs), cols ++ (derivedNames seen hs).map wrap) := by
  intro hs
  induction hs with
  | nil => intro seen cols; simp [derivedNames]
  | cons h t ih =>
    intro seen cols
    rw [List.foldl_cons, dedupStep_countMap, ih]
    simp [derivedNames]

theorem length_derivedNames : ∀ (hs seen : List GoString),
    (derivedNames seen hs).length = hs.length := by
  intro hs
  induction hs with
  | nil => intro _; rfl
  | cons h t ih => intro seen; simp [derivedNames, ih]

theorem getElem?_derivedNames : ∀ (hs seen : List GoString) (i : Nat) (hi : i < hs.length),
    (derivedNames seen hs)[i]? = some (derivedName (seen ++ hs.take i) (hs.get ⟨i, hi⟩)) := by
  intro hs
  induction hs with
  | nil => intro _ i hi; simp at hi
  | cons h t ih =>
    intro seen i hi
    cases i with
    | zero => simp [derivedNames]
    | succ j =>
      have hj : j < t.length := by simpa using hi
      simp only [derivedNames, List.getElem?_cons_succ, List.take_succ_cons, List.get_cons_succ]
      rw [ih (seen ++ [h]) j hj]
      simp

theorem createDatabaseColumns_eq (headers : List GoString) :
    createDatabaseColumns headers =
      "id INTEGER PRIMARY KEY AUTOINCREMENT".toList ::
        (derivedNames [] headers).map (fun n => "\"".toList ++ n ++ "\" TEXT".toList) := by
  unfold createDatabaseColumns
  rw [createDatabaseStep_eq, ← countMap_nil, foldl_dedupStep]
  simp

theorem insertDataColNames_eq (headers : List GoString) :
    insertDataColNames headers =
      (derivedNames [] headers).map (fun n => "\"".toList ++ n ++ "\"".toList) := by
  unfold insertDataColNames
  rw [insertDataStep_eq, ← countMap_nil, foldl_dedupStep]
  simp

theorem mem_map_take_iff (headers : List GoString) (i : Nat) (hi : i < headers.length)
    (b : GoString) :
    b ∈ (headers.take i).map sanitizeColumnName ↔
      ∃ j, ∃ hj : j < i, sanitizeColumnName (headers.get ⟨j, by omega⟩) = b := by
  constructor
  · intro h
    obtain ⟨a, ha, rfl⟩ := List.mem_map.1 h
    obtain ⟨j, hj, rfl⟩ := List.getElem_of_mem ha
    have hj2 : j < i := by
      have := hj; rw [List.length_take] at this; omega
    exact ⟨j, hj2, by simp [List.getElem_take]⟩
  · rintro ⟨j, hj, rfl⟩
    refine List.mem_map.2 ⟨headers.get ⟨j, by omega⟩, ?_, rfl⟩
    have hlen : j < (headers.take i).length := by rw [List.length_take]; omega
    have : (headers.take i)[j] = headers.get ⟨j, by omega⟩ := by simp [List.getElem_take]
    rw [← this]
    exact List.getElem_mem hlen

theorem count_take_succ (headers : List GoString) (i : Nat) (hi : i < headers.length) :
    ((headers.take (i + 1)).map sanitizeColumnName).count
        (sanitizeColumnName (headers.get ⟨i, hi⟩)) =
      ((headers.take i).map sanitizeColumnName).count
        (sanitizeColumnName (headers.get ⟨i, hi⟩)) + 1 := by
  rw [List.take_succ, List.getElem?_eq_getElem hi]
  simp only [Option.toList, List.map_append, List.map_cons, List.map_nil, List.count_append,
    List.count_singleton, List.get_eq_getElem, beq_self_eq_true, if_true]

/-- C1, evaluated: the headers `Name`, `Name`, `Name_2` give the column name
`Name_2` twice, in the CREATE TABLE statement and in the INSERT statement. -/
theorem column_names_collide :
    createDatabaseColumns ["Name".toList, "Name".toList, "Name_2".toList] =
      ["id INTEGER PRIMARY KEY AUTOINCREMENT".toList, "\"Name\" TEXT".toList,
        "\"Name_2\" TEXT".toList, "\"Name_2\" TEXT".toList] ∧
    insertDataColNames ["Name".toList, "Name".toList, "Name_2".toList] =
      ["\"Name\"".toList, "\"Name_2\"".toList, "\"Name_2\"".toList] := by
  decide

/-- C3: the column of header `i` in `createDatabase` carries the sanitized base
name unchanged when no earlier header has the same base name, and otherwise
the base name, an underscore and the decimal count `n ≥ 2` of the headers at
positions `0..i` with that base name; the headers `Name`, `Name`, `2nd Col`
give `Name`, `Name_2`, `col_2nd_Col`. -/
theorem createDatabase_column_name (headers : List GoString) (i : Nat)
    (hi : i < headers.length) :
    ((∀ j, ∀ hj : j < i, sanitizeColumnName (headers.get ⟨j, by omega⟩) ≠
          sanitizeColumnName (headers.get ⟨i, hi⟩)) →
      (createDatabaseColumns headers)[i + 1]? =
        some ("\"".toList ++ sanitizeColumnName (headers.get ⟨i, hi⟩) ++ "\" TEXT".toList)) ∧
    ((∃ j, ∃ hj : j < i, sanitizeColumnName (headers.get ⟨j, by omega⟩) =
          sanitizeColumnName (headers.get ⟨i, hi⟩)) →
      2 ≤ ((headers.take (i + 1)).map sanitizeColumnName).count
            (sanitizeColumnName (headers.get ⟨i, hi⟩)) ∧
      (createDatabaseColumns headers)[i + 1]? =
        some ("\"".toList ++
          (sanitizeColumnName (headers.get ⟨i, hi⟩) ++ "_".toList ++
            formatInt (((headers.take (i + 1)).map sanitizeColumnName).count
              (sanitizeColumnName (headers.get ⟨i, hi⟩)))) ++ "\" TEXT".toList)) ∧
    createDatabaseColumns ["Name".toList, "Name".toList, "2nd Col".toList] =
      ["id INTEGER PRIMARY KEY AUTOINCREMENT".toList, "\"Name\" TEXT".toList,
        "\"Name_2\" TEXT".toList, "\"col_2nd_Col\" TEXT".toList] := by
  have hcol : (createDatabaseColumns headers)[i + 1]? =
      some ("\"".toList ++ derivedName (headers.take i) (headers.get ⟨i, hi⟩) ++
        "\" TEXT".toList) := by
    rw [createDatabaseColumns_eq, List.getElem?_cons_succ, List.getElem?_map,
      getElem?_derivedNames headers [] i hi]
    simp
  have hmem := mem_map_take_iff headers i hi (sanitizeColumnName (headers.get ⟨i, hi⟩))
  refine ⟨?_, ?_, by decide⟩
  · intro hno
    have h0 : ((headers.take i).map sanitizeColumnName).count
        (sanitizeColumnName (headers.get ⟨i, hi⟩)) = 0 := by
      rw [List.count_eq_zero, hmem]
      rintro ⟨j, hj, h⟩
      exact hno j hj h
    rw [hcol, derivedName]
    simp only [h0, if_true]
  · intro hex
    have h0 : ((headers.take i).map sanitizeColumnName).count
        (sanitizeColumnName (headers.get ⟨i, hi⟩)) ≠ 0 := by
      rw [Ne, List.count_eq_zero, hmem]
      exact fun h => h hex
    rw [count_take_succ headers i hi]
    refine ⟨by omega, ?_⟩
    rw [hcol, derivedName]
    simp only [h0, if_false]

/-- C3 at the headers `Name`, `Name`, `2nd Col`, position 1. -/
theorem createDatabase_column_name_witness :
    (createDatabaseColumns ["Name".toList, "Name".toList, "2nd Col".toList])[2]? =
      some "\"Name_2\" TEXT".toList := by
  have h := ((createDatabase_column_name ["Name".toList, "Name".toList, "2nd Col".toList] 1
    (by decide)).2.1 ⟨0, by decide, by decide⟩).2
  exact h.trans (by decide)

/-- C4: the column names in the CREATE TABLE statement of `createDatabase`
(after the `id` column) and in the INSERT statement of `insertData` are the
same sequence `names`, of the length of the header list. -/
theorem createDatabase_insertData_same_names (headers : List GoString) :
    ∃ names : List GoString, names.length = headers.length ∧
      createDatabaseColumns headers =
        "id INTEGER PRIMARY KEY AUTOINCREMENT".toList ::
          names.map (fun n => "\"".toList ++ n ++ "\" TEXT".toList) ∧
      insertDataColNames headers = names.map (fun n => "\"".toList ++ n ++ "\"".toList) ∧
      createSQL headers =
        "CREATE TABLE walkthrough_data (\n  ".toList ++
          join ("id INTEGER PRIMARY KEY AUTOINCREMENT".toList ::
            names.map (fun n => "\"".toList ++ n ++ "\" TEXT".toList)) ",\n  ".toList ++
          "\n)".toList ∧
      insertSQL headers =
        "INSERT INTO walkthrough_data (".toList ++
          join (names.map (fun n => "\"".toList ++ n ++ "\"".toList)) ", ".toList ++
          ") VALUES (".toList ++ join (List.replicate names.length "?".toList) ", ".toList ++
          ")".toList := by
  refine ⟨derivedNames [] headers, length_derivedNames headers [],
    createDatabaseColumns_eq headers, insertDataColNames_eq headers, ?_, ?_⟩
  · rw [createSQL, createDatabaseColumns_eq]
  · rw [insertSQL, insertDataColNames_eq, placeholders, length_derivedNames]

/-! ## Lemmas on the row loop -/

theorem length_rowValues (headers row : List GoString) :
    (rowValues headers row).length = headers.length := by
  simp [rowValues]

theorem getElem?_rowValues (headers row : List GoString) (j : Nat) (hj : j < headers.length) :
    (rowValues headers row)[j]? = some (if j < row.length then row.getD j [] else []) := by
  simp [rowValues, List.getElem?_map, List.getElem?_range hj]

theorem insertRows_ok {σ ε : Type} (d : Driver σ ε) (sql : GoString) (headers : List GoString) :
    ∀ (rest : List (List GoString)) (i : Nat) (db : σ) (log : List (Nat × List GoString)),
      (∀ k, k < rest.length →
        execFails d sql (storeAfter d sql db ((rest.take k).map (rowValues headers)))
          (rowValues headers (rest.getD k [])) = false) →
      insertRows d sql headers i db log rest =
        ⟨storeAfter d sql db (rest.map (rowValues headers)),
          log ++ List.enumFrom i (rest.map (rowValues headers)), none⟩ := by
  intro rest
  induction rest with
  | nil => intro i db log _; simp [insertRows, storeAfter]
  | cons row t ih =>
    intro i db log h
    have h0 := h 0 (by simp)
    simp only [List.take_zero, List.map_nil, storeAfter, List.getD_cons_zero, execFails] at h0
    cases hx : d.exec db sql (rowValues headers row) with
    | error e => rw [hx] at h0; simp at h0
    | ok db1 =>
      have ht := ih (i + 1) db1 (log ++ [(i, rowValues headers row)]) (by
        intro k hk
        have := h (k + 1) (by simpa using hk)
        simpa [storeAfter, hx] using this)
      simp only [insertRows, hx, ht, List.map_cons, storeAfter, List.enumFrom_cons,
        List.append_assoc, List.singleton_append]

theorem insertRows_fail {σ ε : Type} (d : Driver σ ε) (sql : GoString) (headers : List GoString) :
    ∀ (rest : List (List GoString)) (k i : Nat) (db : σ) (log : List (Nat × List GoString))
      (e : ε), k < rest.length →
      (∀ j, j < k →
        execFails d sql (storeAfter d sql db ((rest.take j).map (rowValues headers)))
          (rowValues headers (rest.getD j [])) = false) →
      d.exec (storeAfter d sql db ((rest.take k).map (rowValues headers))) sql
          (rowValues headers (rest.getD k [])) = .error e →
      insertRows d sql headers i db log rest =
        ⟨storeAfter d sql db ((rest.take k).map (rowValues headers)),
          log ++ (List.enumFrom i (rest.map (rowValues headers))).take (k + 1),
          some (.rowFailed (i + k + 1) e)⟩ := by
  intro rest
  induction rest with
  | nil => intro k i db log e hk; simp at hk
  | cons row t ih =>
    intro k i db log e hk hfirst hfail
    cases k with
    | zero =>
      simp only [List.take_zero, List.map_nil, storeAfter, List.getD_cons_zero] at hfail
      simp [insertRows, hfail, storeAfter, List.enumFrom_cons]
    | succ k1 =>
      have h0 := hfirst 0 (by omega)
      simp only [List.take_zero, List.map_nil, storeAfter, List.getD_cons_zero, execFails] at h0
      cases hx : d.exec db sql (rowValues headers row) with
      | error e1 => rw [hx] at h0; simp at h0
      | ok db1 =>
        have ht := ih k1 (i + 1) db1 (log ++ [(i, rowValues headers row)]) e
          (by simpa using hk)
          (by
            intro j hj
            have := hfirst (j + 1) (by omega)
            simpa [storeAfter, hx] using this)
          (by simpa [storeAfter, hx] using hfail)
        simp only [insertRows, hx, ht, List.map_cons, storeAfter, List.enumFrom_cons,
          List.append_assoc, List.singleton_append, List.take_succ_cons, InsertOutcome.mk.injEq,
          true_and, Option.some.injEq, InsertError.rowFailed.injEq, and_true]
        omega

theorem insertRows_executed {σ ε : Type} (d : Driver σ ε) (sql : GoString)
    (headers : List GoString) :
    ∀ (rest : List (List GoString)) (i : Nat) (db : σ) (log : List (Nat × List GoString)),
      ∃ n, (insertRows d sql headers i db log rest).executed =
        log ++ (List.enumFrom i (rest.map (rowValues headers))).take n := by
  intro rest
  induction rest with
  | nil => intro i db log; exact ⟨0, by simp [insertRows]⟩
  | cons row t ih =>
    intro i db log
    cases hx : d.exec db sql (rowValues headers row) with
    | error e => exact ⟨1, by simp [insertRows, hx, List.enumFrom_cons]⟩
    | ok db1 =>
      obtain ⟨n, hn⟩ := ih (i + 1) db1 (log ++ [(i, rowValues headers row)])
      exact ⟨n + 1, by simp [insertRows, hx, hn, List.enumFrom_cons]⟩

theorem insertData_executed {σ ε : Type} (d : Driver σ ε) (db : σ)
    (headers : List GoString) (data : List (List GoString)) :
    ∃ n, (insertData d db headers data).executed =
      (List.enum (data.map (rowValues headers))).take n := by
  unfold insertData
  split
  · exact ⟨0, by simp⟩
  · split
    · exact ⟨0, by simp⟩
    · obtain ⟨n, hn⟩ := insertRows_executed d (insertSQL headers) headers data 0 db []
      exact ⟨n, by simpa [List.enum] using hn⟩

/-- C5: the parameter list built for a row has one value per header, the
`j`-th being `row[j]` when the row has a field `j` and the empty string
otherwise; rows that agree on their first `len(headers)` fields give the same
list; and every call of `stmt.Exec` made by `insertData` passes the list of
the row it is made for. -/
theorem insertData_parameters (headers row : List GoString) :
    (rowValues headers row).length = headers.length ∧
    (∀ j, j < headers.length →
      (j < row.length → (rowValues headers row)[j]? = row[j]?) ∧
      (row.length ≤ j → (rowValues headers row)[j]? = some [])) ∧
    (∀ other : List GoString, other.take headers.length = row.take headers.length →
      rowValues headers other = rowValues headers row) ∧
    (∀ (σ ε : Type) (d : Driver σ ε) (db : σ) (data : List (List GoString)) (i : Nat)
      (v : List GoString), (i, v) ∈ (insertData d db headers data).executed →
      ∃ r, data[i]? = some r ∧ v = rowValues headers r) ∧
    rowValues ["A".toList, "B".toList] ["x".toList] = ["x".toList, []] ∧
    rowValues ["A".toList, "B".toList] ["x".toList, "y".toList, "z".toList] =
      ["x".toList, "y".toList] := by
  refine ⟨length_rowValues headers row, ?_, ?_, ?_, by decide, by decide⟩
  · intro j hj
    rw [getElem?_rowValues headers row j hj]
    constructor
    · intro hr
      rw [if_pos hr, List.getElem?_eq_getElem hr, List.getD_eq_getElem _ _ hr]
    · intro hr
      rw [if_neg (by omega)]
  · intro other h
    apply List.ext_getElem?
    intro j
    by_cases hj : j < headers.length
    · rw [getElem?_rowValues _ _ j hj, getElem?_rowValues _ _ j hj]
      have hget : other[j]? = row[j]? := by
        have h1 := congrArg (fun l => l[j]?) h
        simpa [List.getElem?_take, hj] using h1
      have hval : ∀ l : List GoString,
          (if j < l.length then l.getD j [] else []) = (l[j]?).getD [] := by
        intro l
        by_cases hl : j < l.length
        · simp [hl, List.getD_eq_getElem?_getD]
        · simp [hl, List.getElem?_eq_none (Nat.le_of_not_lt hl)]
      rw [hval, hval, hget]
    · rw [List.getElem?_eq_none (by rw [length_rowValues]; omega),
        List.getElem?_eq_none (by rw [length_rowValues]; omega)]
  · intro σ ε d db data i v hmem
    obtain ⟨n, hn⟩ := insertData_executed d db headers data
    rw [hn] at hmem
    have h2 := List.mem_of_mem_take hmem
    rw [List.mk_mem_enum_iff_getElem?, List.getElem?_map] at h2
    cases hd : data[i]? with
    | none => rw [hd] at h2; simp at h2
    | some r =>
      rw [hd] at h2
      exact ⟨r, rfl, by simpa using h2.symm⟩

theorem insertData_of_prepared {σ ε : Type} (d : Driver σ ε) (db : σ)
    (headers : List GoString) (data : List (List GoString)) (hne : data ≠ [])
    (hprep : d.prepare db (insertSQL headers) = none) :
    insertData d db headers data = insertRows d (insertSQL headers) headers 0 db [] data := by
  have hlen : ¬ data.length = 0 := by
    intro h; exact hne (List.length_eq_zero.1 h)
  unfold insertData
  rw [if_neg hlen, hprep]

theorem execFails_eq_true {σ ε : Type} (d : Driver σ ε) (sql : GoString) (db : σ)
    (v : List GoString) (h : execFails d sql db v = true) : ∃ e, d.exec db sql v = .error e := by
  unfold execFails at h
  cases hx : d.exec db sql v with
  | error e => exact ⟨e, rfl⟩
  | ok db1 => rw [hx] at h; simp at h

/-- C9, on a driver whose `Prepare` fails: `insertData` returns an error
although no row is executed and no execution fails. -/
theorem insertData_prepare_failure :
    (insertData noPrepare () ["A".toList] [["x".toList]]).err = some (.prepareFailed ()) ∧
    (insertData noPrepare () ["A".toList] [["x".toList]]).executed = [] ∧
    ¬ ((insertData noPrepare () ["A".toList] [["x".toList]]).err ≠ none ↔
      ∃ k, k < [["x".toList]].length ∧
        rowFails noPrepare () ["A".toList] [["x".toList]] k = true) := by
  refine ⟨by decide, by decide, ?_⟩
  intro h
  obtain ⟨k, _, hk⟩ := h.1 (by decide)
  have hall : ∀ j, rowFails noPrepare () ["A".toList] [["x".toList]] j = false := by
    intro j
    simp [rowFails, execFails, noPrepare]
  rw [hall k] at hk
  exact Bool.false_ne_true hk

/-- C9, amended: when the data rows are not empty and the statement is
prepared, `insertData` returns an error if and only if the execution fails
for some row; the error then carries the 1-based position of the first such
row and its cause, the rows up to that one were executed once each in order
and no later row was; when no execution fails every row is executed once in
order and no error is returned. -/
theorem insertData_rows {σ ε : Type} (d : Driver σ ε) (db : σ) (headers : List GoString)
    (data : List (List GoString)) (hne : data ≠ [])
    (hprep : d.prepare db (insertSQL headers) = none) :
    ((insertData d db headers data).err ≠ none ↔
      ∃ k, k < data.length ∧ rowFails d db headers data k = true) ∧
    (∀ k, k < data.length → rowFails d db headers data k = true →
      (∀ j, j < k → rowFails d db headers data j = false) →
      ∃ e,
        d.exec (storeAfter d (insertSQL headers) db ((data.take k).map (rowValues headers)))
          (insertSQL headers) (rowValues headers (data.getD k [])) = .error e ∧
        (insertData d db headers data).err = some (.rowFailed (k + 1) e) ∧
        (insertData d db headers data).executed =
          (List.enum (data.map (rowValues headers))).take (k + 1)) ∧
    ((∀ k, k < data.length → rowFails d db headers data k = false) →
      (insertData d db headers data).err = none ∧
      (insertData d db headers data).executed = List.enum (data.map (rowValues headers))) := by
  have hrun := insertData_of_prepared d db headers data hne hprep
  have hfail : ∀ k, k < data.length → rowFails d db headers data k = true →
      (∀ j, j < k → rowFails d db headers data j = false) →
      ∃ e,
        d.exec (storeAfter d (insertSQL headers) db ((data.take k).map (rowValues headers)))
          (insertSQL headers) (rowValues headers (data.getD k [])) = .error e ∧
        (insertData d db headers data).err = some (.rowFailed (k + 1) e) ∧
        (insertData d db headers data).executed =
          (List.enum (data.map (rowValues headers))).take (k + 1) := by
    intro k hk hf hfirst
    obtain ⟨e, he⟩ := execFails_eq_true _ _ _ _ hf
    refine ⟨e, he, ?_⟩
    rw [hrun, insertRows_fail d (insertSQL headers) headers data k 0 db [] e hk hfirst he]
    simp [List.enum]
  have hok : (∀ k, k < data.length → rowFails d db headers data k = false) →
      (insertData d db headers data).err = none ∧
      (insertData d db headers data).executed = List.enum (data.map (rowValues headers)) := by
    intro hall
    rw [hrun, insertRows_ok d (insertSQL headers) headers data 0 db [] hall]
    simp [List.enum]
  refine ⟨⟨?_, ?_⟩, hfail, hok⟩
  · intro herr
    by_contra hno
    apply herr
    refine (hok ?_).1
    intro k hk
    by_contra hk2
    exact hno ⟨k, hk, by simpa using hk2⟩
  · intro hex
    have hex2 : ∃ k, k < data.length ∧ rowFails d db headers data k = true := hex
    classical
    have hmin := Nat.find_spec hex2
    have hfirst : ∀ j, j < Nat.find hex2 → rowFails d db headers data j = false := by
      intro j hj
      have h := Nat.find_min hex2 hj
      by_contra hc
      exact h ⟨by omega, by simpa using hc⟩
    obtain ⟨e, _, herr, _⟩ := hfail (Nat.find hex2) hmin.1 hmin.2 hfirst
    rw [herr]; simp

/-- C9, amended, on a driver that rejects the second of three rows: the error
names row 2, and rows 1 and 2 are the only ones executed. -/
theorem insertData_rows_witness :
    (insertData rejectBad 0 ["A".toList]
        [["x".toList], ["bad".toList], ["y".toList]]).err = some (.rowFailed 2 ()) ∧
    (insertData rejectBad 0 ["A".toList]
        [["x".toList], ["bad".toList], ["y".toList]]).executed =
      [(0, ["x".toList]), (1, ["bad".toList])] := by
  obtain ⟨e, _, herr, hexec⟩ :=
    (insertData_rows rejectBad 0 ["A".toList] [["x".toList], ["bad".toList], ["y".toList]]
      (by decide) rfl).2.1 1 (by decide) (by decide) (by decide)
  exact ⟨herr, hexec.trans (by decide)⟩

/-! ## Lemmas on the identifier patterns -/

theorem matchAt_shape (lit s : GoString) :
    matchAt lit s = [] ∨
      ∃ run, matchAt lit s = [lit ++ run, run] ∧ run ≠ [] ∧ (∀ c ∈ run, isIdChar c = true) ∧
        ∃ rest, s = lit ++ run ++ rest := by
  unfold matchAt
  by_cases hp : lit.isPrefixOf s = true
  · by_cases hr : (s.drop lit.length).takeWhile isIdChar = []
    · left; simp [hp, hr]
    · right
      refine ⟨(s.drop lit.length).takeWhile isIdChar, by simp [hp, hr], hr, ?_, ?_⟩
      · intro c hc; exact List.mem_takeWhile_imp hc
      · obtain ⟨t, rfl⟩ := List.isPrefixOf_iff_prefix.1 hp
        refine ⟨(List.drop lit.length (lit ++ t)).dropWhile isIdChar, ?_⟩
        rw [List.append_assoc, List.takeWhile_append_dropWhile]
        simp
  · left; simp [hp]

theorem matchAt_eq_nil_iff (lit s : GoString) :
    matchAt lit s = [] ↔ ¬ ∃ c r, s = lit ++ c :: r ∧ isIdChar c = true := by
  constructor
  · rintro h ⟨c, r, rfl, hc⟩
    unfold matchAt at h
    have hp : lit.isPrefixOf (lit ++ c :: r) = true :=
      List.isPrefixOf_iff_prefix.2 (List.prefix_append _ _)
    simp [hp, List.takeWhile_cons, hc] at h
  · intro h
    rcases matchAt_shape lit s with h0 | ⟨run, _, hne, hall, rest, hs⟩
    · exact h0
    · exfalso
      cases run with
      | nil => exact hne rfl
      | cons c t =>
        exact h ⟨c, t ++ rest, by simpa using hs, hall c (List.mem_cons_self _ _)⟩

theorem not_occurs_nil (lit : GoString) : ¬ Occurs lit [] := by
  rintro ⟨p, c, r, h, _⟩
  have := congrArg List.length h
  simp at this
  omega

theorem occurs_cons_iff (lit : GoString) (a : Char) (s : GoString) :
    Occurs lit (a :: s) ↔ (∃ c r, a :: s = lit ++ c :: r ∧ isIdChar c = true) ∨ Occurs lit s := by
  constructor
  · rintro ⟨p, c, r, h, hc⟩
    cases p with
    | nil => left; exact ⟨c, r, by simpa using h, hc⟩
    | cons b p1 =>
      right
      simp only [List.cons_append, List.cons.injEq] at h
      exact ⟨p1, c, r, h.2, hc⟩
  · rintro (⟨c, r, h, hc⟩ | ⟨p, c, r, h, hc⟩)
    · exact ⟨[], c, r, by simpa using h, hc⟩
    · exact ⟨a :: p, c, r, by simp [h], hc⟩

theorem findStringSubmatch_cons (lit : GoString) (a : Char) (s : GoString) :
    findStringSubmatch lit (a :: s) =
      if matchAt lit (a :: s) = [] then findStringSubmatch lit s else matchAt lit (a :: s) := by
  cases hm : matchAt lit (a :: s) with
  | nil => simp [findStringSubmatch, hm]
  | cons m ms => simp [findStringSubmatch, hm]

theorem findStringSubmatch_eq_nil_iff (lit : GoString) :
    ∀ s : GoString, findStringSubmatch lit s = [] ↔ ¬ Occurs lit s := by
  intro s
  induction s with
  | nil =>
    have h0 : matchAt lit [] = [] := (matchAt_eq_nil_iff lit []).2 (by
      rintro ⟨c, r, h, _⟩
      have := congrArg List.length h
      simp at this
      omega)
    simp [findStringSubmatch, h0, not_occurs_nil]
  | cons a t ih =>
    rw [findStringSubmatch_cons, occurs_cons_iff]
    by_cases hm : matchAt lit (a :: t) = []
    · rw [if_pos hm, ih]
      have := (matchAt_eq_nil_iff lit (a :: t)).1 hm
      constructor
      · rintro h (hh | hh)
        · exact this hh
        · exact h hh
      · intro h hh
        exact h (Or.inr hh)
    · rw [if_neg hm]
      have : ∃ c r, a :: t = lit ++ c :: r ∧ isIdChar c = true := by
        by_contra hc
        exact hm ((matchAt_eq_nil_iff lit (a :: t)).2 hc)
      constructor
      · intro h; exact absurd h hm
      · intro h; exact absurd (Or.inl this) h

theorem findStringSubmatch_shape (lit : GoString) :
    ∀ s : GoString, findStringSubmatch lit s = [] ∨
      ∃ whole run, findStringSubmatch lit s = [whole, run] ∧ run ≠ [] ∧
        ∀ c ∈ run, isIdChar c = true := by
  intro s
  induction s with
  | nil =>
    rcases matchAt_shape lit [] with h | ⟨run, h, hne, hall, _⟩
    · left; simpa [findStringSubmatch] using h
    · right; exact ⟨lit ++ run, run, by simpa [findStringSubmatch] using h, hne, hall⟩
  | cons a t ih =>
    rw [findStringSubmatch_cons]
    by_cases hm : matchAt lit (a :: t) = []
    · rw [if_pos hm]; exact ih
    · rw [if_neg hm]
      rcases matchAt_shape lit (a :: t) with h | ⟨run, h, hne, hall, _⟩
      · exact absurd h hm
      · right; exact ⟨lit ++ run, run, h, hne, hall⟩

theorem findStringSubmatch_of_matchAt (lit s : GoString) (h : matchAt lit s ≠ []) :
    findStringSubmatch lit s = matchAt lit s := by
  cases s with
  | nil => rfl
  | cons a t => rw [findStringSubmatch_cons, if_neg h]

theorem matchAt_exact (lit id s : GoString) (hne : id ≠ [])
    (hid : ∀ c ∈ id, isIdChar c = true) (hs : ∀ c, s.head? = some c → isIdChar c = false) :
    matchAt lit (lit ++ id ++ s) = [lit ++ id, id] := by
  have hp : lit.isPrefixOf (lit ++ id ++ s) = true :=
    List.isPrefixOf_iff_prefix.2 ⟨id ++ s, by simp⟩
  have hdrop : (lit ++ id ++ s).drop lit.length = id ++ s := by
    rw [List.append_assoc, List.drop_left]
  have htail : s.takeWhile isIdChar = [] := by
    cases s with
    | nil => rfl
    | cons c t => simp [List.takeWhile_cons, hs c rfl]
  have hrun : (id ++ s).takeWhile isIdChar = id := by
    rw [List.takeWhile_append_of_pos hid, htail, List.append_nil]
  unfold matchAt
  simp only [hp, hdrop, hrun, if_true, if_neg hne]

theorem findStringSubmatch_first (lit : GoString) :
    ∀ (p id s : GoString), id ≠ [] → (∀ c ∈ id, isIdChar c = true) →
      (∀ c, s.head? = some c → isIdChar c = false) →
      (∀ (q : GoString) (c : Char) (r : GoString),
        p ++ lit ++ id ++ s = q ++ lit ++ c :: r → isIdChar c = true → p.length ≤ q.length) →
      findStringSubmatch lit (p ++ lit ++ id ++ s) = [lit ++ id, id] := by
  intro p
  induction p with
  | nil =>
    intro id s hne hid hs _
    have h := matchAt_exact lit id s hne hid hs
    rw [List.nil_append, findStringSubmatch_of_matchAt _ _ (by rw [h]; simp), h]
  | cons a p1 ih =>
    intro id s hne hid hs hfirst
    have hm : matchAt lit (a :: (p1 ++ lit ++ id ++ s)) = [] := by
      rw [matchAt_eq_nil_iff]
      rintro ⟨c, r, h, hc⟩
      have := hfirst [] c r (by simpa using h) hc
      simp at this
    have hcons : a :: p1 ++ lit ++ id ++ s = a :: (p1 ++ lit ++ id ++ s) := by simp
    rw [hcons, findStringSubmatch_cons, if_pos hm]
    apply ih id s hne hid hs
    intro q c r h hc
    have := hfirst (a :: q) c r (by simp [← h]) hc
    simpa using this

theorem extractLoop_hit (pat : GoString) (more : List GoString) (url whole run : GoString)
    (h : findStringSubmatch pat url = [whole, run]) :
    extractLoop (pat :: more) url = some run := by
  simp [extractLoop, h]

theorem extractLoop_miss (pat : GoString) (more : List GoString) (url : GoString)
    (h : findStringSubmatch pat url = []) :
    extractLoop (pat :: more) url = extractLoop more url := by
  simp [extractLoop, h]

theorem extractLoop_first (url whole run : GoString)
    (h : findStringSubmatch "/spreadsheets/d/".toList url = [whole, run]) :
    extractLoop patterns url = some run :=
  extractLoop_hit _ _ url whole run h

theorem extractLoop_second (url whole run : GoString)
    (h1 : findStringSubmatch "/spreadsheets/d/".toList url = [])
    (h2 : findStringSubmatch "key=".toList url = [whole, run]) :
    extractLoop patterns url = some run :=
  (extractLoop_miss _ _ url h1).trans (extractLoop_hit _ _ url whole run h2)

theorem extractLoop_none (url : GoString)
    (h1 : findStringSubmatch "/spreadsheets/d/".toList url = [])
    (h2 : findStringSubmatch "key=".toList url = []) :
    extractLoop patterns url = none :=
  (extractLoop_miss _ _ url h1).trans ((extractLoop_miss _ _ url h2).trans rfl)

theorem first_of_not_occurs (lit p id s : GoString) (h : ¬ Occurs lit (p ++ lit)) :
    ∀ (q : GoString) (c : Char) (r : GoString),
      p ++ lit ++ id ++ s = q ++ lit ++ c :: r → isIdChar c = true → p.length ≤ q.length := by
  intro q c r he hc
  by_contra hlt
  have h1 : q ++ lit ++ [c] <+: p ++ lit ++ id ++ s := ⟨r, by rw [he]; simp⟩
  have h2 : p ++ lit <+: p ++ lit ++ id ++ s := ⟨id ++ s, by simp⟩
  have hlen : (q ++ lit ++ [c]).length ≤ (p ++ lit).length := by
    simp only [List.length_append, List.length_singleton]; omega
  obtain ⟨t, ht⟩ := List.prefix_of_prefix_length_le h1 h2 hlen
  exact h ⟨q, c, t, by rw [← ht]; simp, hc⟩

theorem not_occurs_of_all (lit url : GoString) (x : Char) (hx : x ∈ lit)
    (hxc : isIdChar x = false) (hall : ∀ c ∈ url, isIdChar c = true) : ¬ Occurs lit url := by
  rintro ⟨p, c, r, rfl, _⟩
  have := hall x (by simp [hx])
  rw [hxc] at this
  exact Bool.false_ne_true this

theorem matchesBareID_iff (url : GoString) :
    matchesBareID url = true ↔ url ≠ [] ∧ ∀ c ∈ url, isIdChar c = true := by
  cases url with
  | nil => simp [matchesBareID]
  | cons a t => simp [matchesBareID]

/-- C6, at a reference with two document paths: the identifier returned is the
one of the first path, not the one of the second. -/
theorem extractSheetID_earlier_path :
    extractSheetID ("https://docs.google.com/spreadsheets/d/OLD?next=".toList ++
        "/spreadsheets/d/".toList ++ "NEW".toList ++ "/edit".toList) = .ok "OLD".toList ∧
    extractSheetID ("https://docs.google.com/spreadsheets/d/OLD?next=".toList ++
        "/spreadsheets/d/".toList ++ "NEW".toList ++ "/edit".toList) ≠ .ok "NEW".toList ∧
    "NEW".toList ≠ [] ∧ (∀ c ∈ "NEW".toList, isIdChar c = true) ∧
    (∀ c, "/edit".toList.head? = some c → isIdChar c = false) := by
  have h : extractSheetID ("https://docs.google.com/spreadsheets/d/OLD?next=".toList ++
      "/spreadsheets/d/".toList ++ "NEW".toList ++ "/edit".toList) = .ok "OLD".toList := rfl
  refine ⟨h, ?_, by decide, by decide, by decide⟩
  rw [h]
  intro hh
  injection hh with hh
  revert hh
  decide

/-- C6, amended: for a reference `p ++ "/spreadsheets/d/" ++ id ++ s` with `id`
non-empty over `[a-zA-Z0-9-_]`, `s` empty or starting outside that class, and
no occurrence of `/spreadsheets/d/` followed by a class character that starts
inside `p` (none in `p ++ "/spreadsheets/d/"`), `extractSheetID` succeeds and
returns `id`. -/
theorem extractSheetID_path (p id s : GoString) (hne : id ≠ [])
    (hid : ∀ c ∈ id, isIdChar c = true) (hs : ∀ c, s.head? = some c → isIdChar c = false)
    (hfirst : ¬ Occurs "/spreadsheets/d/".toList (p ++ "/spreadsheets/d/".toList)) :
    extractSheetID (p ++ "/spreadsheets/d/".toList ++ id ++ s) = .ok id := by
  have h := findStringSubmatch_first "/spreadsheets/d/".toList p id s hne hid hs
    (first_of_not_occurs _ p id s hfirst)
  unfold extractSheetID
  rw [extractLoop_first _ _ _ h]

/-- C6, amended, at the reference of the end-to-end scenario, which also has a
`key=` parameter. -/
theorem extractSheetID_path_witness :
    extractSheetID ("https://docs.google.com".toList ++ "/spreadsheets/d/".toList ++
      "ABC123".toList ++ "/edit?key=zzz#gid=0".toList) = .ok "ABC123".toList :=
  extractSheetID_path "https://docs.google.com".toList "ABC123".toList
    "/edit?key=zzz#gid=0".toList (by decide) (by decide) (by decide)
    ((findStringSubmatch_eq_nil_iff _ _).1 (by decide))

/-- C7: a non-empty string made only of characters of `[a-zA-Z0-9-_]` is
returned unchanged. -/
theorem extractSheetID_bare (url : GoString) (hne : url ≠ [])
    (hall : ∀ c ∈ url, isIdChar c = true) : extractSheetID url = .ok url := by
  have h1 := (findStringSubmatch_eq_nil_iff "/spreadsheets/d/".toList url).2
    (not_occurs_of_all _ url '/' (by decide) (by decide) hall)
  have h2 := (findStringSubmatch_eq_nil_iff "key=".toList url).2
    (not_occurs_of_all _ url '=' (by decide) (by decide) hall)
  unfold extractSheetID
  rw [extractLoop_none url h1 h2]
  simp [(matchesBareID_iff url).2 ⟨hne, hall⟩]

/-- C7 at the identifier `ABC-123_x`. -/
theorem extractSheetID_bare_witness :
    extractSheetID "ABC-123_x".toList = .ok "ABC-123_x".toList :=
  extractSheetID_bare "ABC-123_x".toList (by decide) (by decide)

/-- C8: `extractSheetID` returns its error exactly when the reference has no
`/spreadsheets/d/` followed by a character of `[a-zA-Z0-9-_]`, no `key=`
followed by such a character, and is not itself a non-empty string of such
characters; an identifier it returns is non-empty and made of such characters
only. -/
theorem extractSheetID_error_iff (url : GoString) :
    ((∃ msg, extractSheetID url = .error msg) ↔
      (¬ Occurs "/spreadsheets/d/".toList url ∧ ¬ Occurs "key=".toList url ∧
        ¬ (url ≠ [] ∧ ∀ c ∈ url, isIdChar c = true))) ∧
    (∀ msg, extractSheetID url = .error msg →
      msg = "could not extract sheet ID from URL: ".toList ++ url) ∧
    (∀ id, extractSheetID url = .ok id → id ≠ [] ∧ ∀ c ∈ id, isIdChar c = true) := by
  have hb := matchesBareID_iff url
  have hn1 := findStringSubmatch_eq_nil_iff "/spreadsheets/d/".toList url
  have hn2 := findStringSubmatch_eq_nil_iff "key=".toList url
  rcases findStringSubmatch_shape "/spreadsheets/d/".toList url with
    h1 | ⟨w1, run1, h1, hne1, hall1⟩
  · rcases findStringSubmatch_shape "key=".toList url with h2 | ⟨w2, run2, h2, hne2, hall2⟩
    · have hloop := extractLoop_none url h1 h2
      have e : extractSheetID url =
          if matchesBareID url = true then .ok url
          else .error ("could not extract sheet ID from URL: ".toList ++ url) := by
        unfold extractSheetID; rw [hloop]
      by_cases hm : matchesBareID url = true
      · rw [e, if_pos hm]
        refine ⟨⟨?_, ?_⟩, ?_, ?_⟩
        · rintro ⟨msg, h⟩; cases h
        · rintro ⟨_, _, h⟩; exact absurd (hb.1 hm) h
        · intro msg h; cases h
        · intro id h
          injection h with h
          subst h
          exact hb.1 hm
      · rw [e, if_neg hm]
        refine ⟨⟨?_, ?_⟩, ?_, ?_⟩
        · intro _
          exact ⟨hn1.1 h1, hn2.1 h2, fun h => hm (hb.2 h)⟩
        · intro _; exact ⟨_, rfl⟩
        · intro msg h
          injection h with h
          exact h.symm
        · intro id h; cases h
    · have e : extractSheetID url = .ok run2 := by
        unfold extractSheetID; rw [extractLoop_second url w2 run2 h1 h2]
      rw [e]
      refine ⟨⟨?_, ?_⟩, ?_, ?_⟩
      · rintro ⟨msg, h⟩; cases h
      · rintro ⟨_, h, _⟩
        rw [hn2.2 h] at h2
        simp at h2
      · intro msg h; cases h
      · intro id h
        injection h with h
        subst h
        exact ⟨hne2, hall2⟩
  · have e : extractSheetID url = .ok run1 := by
      unfold extractSheetID; rw [extractLoop_first url w1 run1 h1]
    rw [e]
    refine ⟨⟨?_, ?_⟩, ?_, ?_⟩
    · rintro ⟨msg, h⟩; cases h
    · rintro ⟨h, _⟩
      rw [hn1.2 h] at h1
      simp at h1
    · intro msg h; cases h
    · intro id h
      injection h with h
      subst h
      exact ⟨hne1, hall1⟩

end Converter
